import Mathlib

/-!
Verification development for `qutebrowser/commands/runners.py`
(command parsing and dispatch: `CommandRunner.parse`, `parse_all`,
`_parse_count`, `_get_alias`, `_parse_fallback`, `_split_args`,
`_completion_match`, `replace_variables`, `_current_url`, `run`).

Python strings are modelled as `List Char`; Python exceptions as an
explicit error type threaded through `Except` (or, for the imperative
`run` loop, a result trace paired with an optional terminating error).
External collaborators (command registry, alias table, the whitespace
splitter from `qutebrowser.misc.split`, the browsing context) are not
part of the source file; the registry and alias table are parameters,
and the splitter and URL rendering are modelled from the spec.
-/

set_option autoImplicit false

/-- Python strings, modelled as lists of characters. -/
abbrev Str := List Char

/-- Whitespace characters recognised by Python's `str.split` / `str.strip`
(ASCII subset; exotic unicode whitespace is not modelled). -/
def isPySpace (c : Char) : Bool :=
  c == ' ' || c == '\t' || c == '\n' || c == '\x0d' || c == '\x0b' || c == '\x0c'

/-- Python `str.strip()` with no arguments: remove leading and trailing
whitespace. -/
def pyStrip (s : Str) : Str :=
  ((s.dropWhile isPySpace).reverse.dropWhile isPySpace).reverse

/-- Python `text.partition(' ')`: split at the first literal space into
(before, separator, after); when no space occurs the result is
(text, "", ""). -/
def pyPartition : Str → Str × Str × Str
  | [] => ([], [], [])
  | c :: cs =>
    if c = ' ' then ([], [' '], cs)
    else
      let r := pyPartition cs
      (c :: r.1, r.2.1, r.2.2)

/-- Helper: split at the first `':'`, as in Python `s.split(':', maxsplit=1)`;
`none` exactly when `':' not in s`. -/
def splitColon : Str → Option (Str × Str)
  | [] => none
  | c :: cs =>
    if c = ':' then some ([], cs)
    else (splitColon cs).map (fun p => (c :: p.1, p.2))

/-- Decrement an optional split budget (`none` = unbounded). -/
def decr : Option Nat → Option Nat
  | none => none
  | some n => some (n - 1)

/-- Worker for Python whitespace splitting with an optional `maxsplit`:
`acc` is the current token accumulated in reverse.  Once the split budget
is exhausted, the rest of the string (after the pending whitespace run)
is kept verbatim as the final token, exactly like `str.split(None, n)`. -/
def splitWsGo : Option Nat → Str → Str → List Str
  | _, [], acc => if acc = [] then [] else [acc.reverse]
  | m, c :: cs, acc =>
    if isPySpace c then
      if acc = [] then splitWsGo m cs []
      else acc.reverse :: splitWsGo (decr m) cs []
    else
      if acc = [] then
        match m with
        | some 0 => [c :: cs]
        | _ => splitWsGo m cs [c]
      else splitWsGo m cs (c :: acc)

/-- Python `s.split()` (with `maxsplit = none` for unbounded, as in
`s.split(maxsplit=n)` otherwise). -/
def splitWsMax (m : Option Nat) (s : Str) : List Str :=
  splitWsGo m s []

/-- Maximal runs of whitespace / non-whitespace characters, in order. -/
def segRuns : Str → List Str
  | [] => []
  | c :: cs =>
    match segRuns cs with
    | [] => [[c]]
    | r :: rs =>
      if isPySpace c = isPySpace (r.headD ' ') then (c :: r) :: rs
      else [c] :: r :: rs

/-- Worker assembling keep-whitespace chunks from alternating runs:
each chunk is a token together with the whitespace run preceding it,
trailing whitespace attaches to the last chunk, and once the split
budget is exhausted the remainder is kept verbatim. -/
def keepAsm : Option Nat → Str → List Str → List Str
  | _, chunk, [] => if chunk = [] then [] else [chunk]
  | m, chunk, r :: rs =>
    if isPySpace (r.headD 'x') then
      match rs with
      | [] => if chunk = [] then [] else [chunk ++ r]
      | t :: rs' =>
        if chunk = [] then keepAsm m (r ++ t) rs'
        else
          match m with
          | some 0 => [chunk ++ r ++ t ++ rs'.flatten]
          | _ => chunk :: keepAsm (decr m) (r ++ t) rs'
    else
      if chunk = [] then keepAsm m r rs
      else [chunk ++ r ++ rs.flatten]

/-- Whitespace splitting that keeps the whitespace attached to the tokens
(leading whitespace goes with the following token, trailing whitespace
with the last token). -/
def splitWsKeep (m : Option Nat) (s : Str) : List Str :=
  keepAsm m [] (segRuns s)

/-- Modelled from the spec: the external Splitter's
`simpleSplit(text, keep, maxsplit=unbounded)` from `qutebrowser.misc.split`
(not under `src/`): whitespace tokenization, where `maxsplit` limits how
many times the string is divided so that the last token absorbs the
remainder verbatim, and `keep` preserves the whitespace inside the
returned tokens. -/
def simple_split (s : Str) (keep : Bool) (maxsplit : Option Nat) : List Str :=
  if keep then splitWsKeep maxsplit s else splitWsMax maxsplit s

/-- Modelled from the spec: the external Splitter's `fullSplit(text, keep)`
(`split.split` in `qutebrowser.misc.split`, not under `src/`).  Its
quote/escape grammar is left unspecified by the spec, so it is modelled
as unbounded whitespace tokenization. -/
def fullSplit (s : Str) (keep : Bool) : List Str :=
  simple_split s keep none

/-- Python `text.split(';;')`: split on the two-character chain separator,
scanning left to right without overlap; never empty. -/
def splitSS : Str → List Str
  | [] => [[]]
  | ';' :: ';' :: rest => [] :: splitSS rest
  | c :: rest =>
    match splitSS rest with
    | [] => [[c]]
    | x :: xs => (c :: x) :: xs

/-- Python `';;' in text`. -/
def hasSS : Str → Bool
  | [] => false
  | ';' :: ';' :: _ => true
  | _ :: rest => hasSS rest

/-- Python `text.endswith(' ')`. -/
def endsWithSpace (s : Str) : Bool :=
  s.getLast? == some ' '

/-- Whether `p` occurs at position 0 of `s`, i.e. Python `s.find(p) == 0`. -/
def isStartOf : Str → Str → Bool
  | [], _ => true
  | _, [] => false
  | a :: as, b :: bs => a == b && isStartOf as bs

/-- Value of a nonempty string of ASCII digits, `none` otherwise. -/
def digitsVal (s : Str) : Option Nat :=
  if s.isEmpty then none
  else if s.all Char.isDigit then
    some (s.foldl (fun a c => a * 10 + (c.toNat - 48)) 0)
  else none

/-- Python `int(s)` on a string, returning `none` on `ValueError`:
surrounding whitespace is stripped, an optional sign is allowed, then
ASCII digits (underscore separators and unicode digits are not
modelled). -/
def pyInt (s : Str) : Option Int :=
  match pyStrip s with
  | '+' :: ds => (digitsVal ds).map Int.ofNat
  | '-' :: ds => (digitsVal ds).map (fun n => -(n : Int))
  | ds => (digitsVal ds).map Int.ofNat

/-- Association-list lookup (first match wins), modelling dict/config
lookup by key. -/
def alookup {α : Type} (l : List (Str × α)) (k : Str) : Option α :=
  (l.find? (fun p => p.1 == k)).map (fun p => p.2)

/-- Dict assignment `d[k] = v`: replace the first binding of `k`, or append
a new binding, preserving insertion order like a Python dict. -/
def dictSet {α : Type} : List (Str × α) → Str → α → List (Str × α)
  | [], k, v => [(k, v)]
  | (k', v') :: rest, k, v =>
    if k' == k then (k, v) :: rest else (k', v') :: dictSet rest k v

/-- A registered command (`qutebrowser.commands.command.Command`), reduced
to the attributes `runners.py` reads: `maxsplit`, `flags_with_args` and
`no_cmd_split`.  The command registry `cmdutils.cmd_dict` is an external
collaborator and appears as the `cmd_dict` field of `Config`. -/
structure Cmd where
  maxsplit : Option Nat
  flags_with_args : List Str
  no_cmd_split : Bool
  deriving DecidableEq

/-- The `ParseResult` namedtuple `(cmd, args, cmdline, count)`. -/
structure ParseResult where
  cmd : Option Cmd
  args : Option (List Str)
  cmdline : List Str
  count : Option Int
  deriving DecidableEq

/-- Python exceptions observable from the embedded code: the two
`cmdexc` error kinds raised here, plus the builtin exceptions that the
code can let escape (`IndexError` from `parts[0]`, `AttributeError`
from `None.no_cmd_split` / `None.run`, `TypeError` from
`'{url}' in None`). -/
inductive PyError where
  | noSuchCommand (msg : Str)
  | commandMetaError (msg : Str)
  | commandError (msg : Str)
  | indexError
  | attributeError
  | typeError
  deriving DecidableEq

instance {ε α : Type} [DecidableEq ε] [DecidableEq α] : DecidableEq (Except ε α) := fun x y =>
  match x, y with
  | .error a, .error b =>
    match decEq a b with
    | isTrue h => isTrue (h ▸ rfl)
    | isFalse h => isFalse (fun hh => h (Except.error.inj hh))
  | .error _, .ok _ => isFalse (fun hh => Except.noConfusion hh)
  | .ok _, .error _ => isFalse (fun hh => Except.noConfusion hh)
  | .ok a, .ok b =>
    match decEq a b with
    | isTrue h => isTrue (h ▸ rfl)
    | isFalse h => isFalse (fun hh => h (Except.ok.inj hh))

/-- Modelled from the spec: a URL of the browsing context, carrying its
two renderings used by `replace_variables` (`QUrl.FullyEncoded |
QUrl.RemovePassword` and plain `QUrl.RemovePassword`), both with
credentials stripped. -/
structure Url where
  fullyEncodedRemovePassword : Str
  removePassword : Str
  deriving DecidableEq

/-- The per-runner configuration read from external collaborators: the
alias table (config section `aliases`), the command registry
(`cmdutils.cmd_dict`, iterated in order for completion matching), and
the `_partial_match` constructor flag. -/
structure Config where
  aliases : List (Str × Str)
  cmd_dict : List (Str × Cmd)
  partial_match : Bool

/-- The runtime context `run` consults: the tabbed browser's
`current_url()` (either a `Url` or a `QtValueError` with optional reason
text) and the mode manager's current mode. -/
structure RunCtx where
  tabbed_browser : Except (Option Str) Url
  mode : Str

/-- One successful command invocation `cmd.run(win_id, args, count)`,
recording the resolved command, the substituted arguments, and the
count passed (the opaque `win_id` is not modelled). -/
structure Invocation where
  cmd : Cmd
  args : List Str
  count : Option Int
  deriving DecidableEq

/-- The module-global `last_command` dict, keyed by mode. -/
abbrev LastReg := List (Str × (Str × Option Int))

/-- `CommandRunner._get_alias`: look up the first whitespace-delimited
token of the stripped text in the alias table; on a hit build
`'{} {}'.format(alias, parts[1])` (or just the alias when there is no
remainder), preserving a trailing space of the original text.  On empty
or all-whitespace text, `parts[0]` raises `IndexError`, which the
`except` clause (catching only the two config errors) does not stop. -/
def get_alias (cfg : Config) (text : Str) : Except PyError (Option Str) :=
  match splitWsMax (some 1) (pyStrip text) with
  | [] => .error .indexError
  | p0 :: rest =>
    match alookup cfg.aliases p0 with
    | none => .ok none
    | some repl =>
      let new_cmd :=
        match rest with
        | [] => repl
        | p1 :: _ => repl ++ ' ' :: p1
      .ok (some (if endsWithSpace text then new_cmd ++ [' '] else new_cmd))

/-- `CommandRunner._parse_count`: if `':' not in cmdstr` return
`(None, cmdstr)`; otherwise split once at the first colon, try `int` on
the prefix (an invalid prefix silently becomes `None`), and return the
remainder. -/
def parse_count (cmdstr : Str) : Option Int × Str :=
  match splitColon cmdstr with
  | none => (none, cmdstr)
  | some (pre, post) => (pyInt pre, post)

/-- `CommandRunner._parse_fallback`: tokenize the text without a valid
command; `cmd` and `args` are both `None`. -/
def parse_fallback (text : Str) (count : Option Int) (keep : Bool) : ParseResult :=
  let cmdline :=
    if keep then
      let p := pyPartition text
      p.1 :: p.2.1 :: splitWsMax none p.2.2
    else splitWsMax none text
  ⟨none, none, cmdline, count⟩

/-- `CommandRunner._completion_match`: replace `cmdstr` with the unique
registry key having `cmdstr` as a literal prefix (`find(cmdstr) == 0`),
if exactly one exists. -/
def completion_match (cfg : Config) (cmdstr : Str) : Str :=
  match (cfg.cmd_dict.map Prod.fst).filter (fun v => isStartOf cmdstr v) with
  | [m] => m
  | _ => cmdstr

/-- The scanning loop of `CommandRunner._split_args`: walk the simple
split left to right with the running index `i` and flags-with-args
count `f`; a stripped token starting with `-` is a flag (counted in `f`
when listed in `flags_with_args`); the first non-flag token stops the
walk. -/
def findBoundary (flags : List Str) : Nat → Nat → List Str → Option (Nat × Nat)
  | _, _, [] => none
  | i, f, a :: rest =>
    let a' := pyStrip a
    if a'.head? = some '-' then
      findBoundary flags (i + 1) (if flags.contains a' then f + 1 else f) rest
    else some (i, f)

/-- `CommandRunner._split_args`: empty argstr gives `[]`; with
`maxsplit = None` delegate to the full split; otherwise locate the
first non-flag token and re-split with
`maxsplit = i + cmd.maxsplit + flag_arg_count` (if only flags occur,
the first simple split is already right). -/
def split_args (cmd : Cmd) (argstr : Str) (keep : Bool) : List Str :=
  if argstr = [] then []
  else
    match cmd.maxsplit with
    | none => fullSplit argstr keep
    | some m =>
      let sargs := simple_split argstr keep none
      match findBoundary cmd.flags_with_args 0 0 sargs with
      | some (i, f) => simple_split argstr keep (some (i + m + f))
      | none => sargs

/-- The tail of `CommandRunner.parse` after the alias check: optional
completion match, registry lookup (unknown command raises
`NoSuchCommandError` or falls back), argument splitting, and `cmdline`
reconstruction. -/
def parseTail (cfg : Config) (text cmdstr sep argstr : Str) (count : Option Int)
    (fallback keep : Bool) : Except PyError ParseResult :=
  let cmdstr := if cfg.partial_match then completion_match cfg cmdstr else cmdstr
  match alookup cfg.cmd_dict cmdstr with
  | none =>
    if fallback then .ok (parse_fallback text count keep)
    else .error (.noSuchCommand (cmdstr ++ ": no such command".toList))
  | some cmd =>
    let args := split_args cmd argstr keep
    let cmdline :=
      if keep then
        match args with
        | a0 :: rest => cmdstr :: (sep ++ a0) :: rest
        | [] => [cmdstr, sep]
      else cmdstr :: args
    .ok ⟨some cmd, some args, cmdline, count⟩

/-- `CommandRunner.parse` with `aliases=False`: partition on the first
space, strip the count prefix, raise `NoSuchCommandError("No command
given")` on an empty command token without fallback, then proceed to
the tail. -/
def parseNoAlias (cfg : Config) (text : Str) (fallback keep : Bool) :
    Except PyError ParseResult :=
  let p := pyPartition text
  let pc := parse_count p.1
  if pc.2 = [] ∧ fallback = false then .error (.noSuchCommand ("No command given".toList))
  else parseTail cfg text pc.2 p.2.1 p.2.2 pc.1 fallback keep

/-- `CommandRunner.parse(text, aliases, fallback, keep)`: as
`parseNoAlias`, but when `aliases` is set, a successful alias lookup
re-parses the replacement text with `aliases=False`. -/
def parse (cfg : Config) (text : Str) (aliases fallback keep : Bool) :
    Except PyError ParseResult :=
  let p := pyPartition text
  let pc := parse_count p.1
  if pc.2 = [] ∧ fallback = false then .error (.noSuchCommand ("No command given".toList))
  else
    if aliases then
      match get_alias cfg text with
      | .error e => .error e
      | .ok (some new_cmd) => parseNoAlias cfg new_cmd fallback keep
      | .ok none => parseTail cfg text pc.2 p.2.1 p.2.2 pc.1 fallback keep
    else parseTail cfg text pc.2 p.2.1 p.2.2 pc.1 fallback keep

/-- `text.split(';;')[0]` (the list is never empty). -/
def firstSeg (text : Str) : Str :=
  (splitSS text).headD []

/-- The prelude of `CommandRunner.parse_all` that fixes the `sub_texts`
list: without `';;'` the whole text is the only segment; otherwise the
first segment is parsed to consult `result.cmd.no_cmd_split` (an
`AttributeError` when the fallback produced `cmd=None`), keeping the
whole text unsplit for a no-split command and otherwise splitting on
`';;'` and stripping each segment. -/
def subTexts (cfg : Config) (text : Str) (aliases fallback keep : Bool) :
    Except PyError (List Str) :=
  if hasSS text then
    match parse cfg (firstSeg text) aliases fallback keep with
    | .error e => .error e
    | .ok result =>
      match result.cmd with
      | none => .error .attributeError
      | some c =>
        .ok (if c.no_cmd_split then [text] else (splitSS text).map pyStrip)
  else .ok [text]

/-- The `for sub in sub_texts: yield self.parse(sub, ...)` loop, taken
eagerly: parse each segment in order, stopping at the first raised
error (results yielded before the error are not retained by this
eager model). -/
def parseList (cfg : Config) (aliases fallback keep : Bool) :
    List Str → Except PyError (List ParseResult)
  | [] => .ok []
  | t :: ts =>
    match parse cfg t aliases fallback keep with
    | .error e => .error e
    | .ok r =>
      match parseList cfg aliases fallback keep ts with
      | .error e => .error e
      | .ok rs => .ok (r :: rs)

/-- `CommandRunner.parse_all`: determine the segments, then parse each
in order. -/
def parse_all (cfg : Config) (text : Str) (aliases fallback keep : Bool) :
    Except PyError (List ParseResult) :=
  match subTexts cfg text aliases fallback keep with
  | .error e => .error e
  | .ok subs => parseList cfg aliases fallback keep subs

/-- The `CommandError` message built by `_current_url` from a
`QtValueError`: `"Current URL is invalid"`, the reason in parentheses
when it is truthy, then `"!"`. -/
def invalidUrlMsg (reason : Option Str) : Str :=
  let mid :=
    match reason with
    | some r => if r.isEmpty then [] else " (".toList ++ r ++ ")".toList
    | none => []
  "Current URL is invalid".toList ++ mid ++ "!".toList

/-- `_current_url`: the tabbed browser's current URL, converting a
`QtValueError` into a `CommandError`. -/
def current_url (tb : Except (Option Str) Url) : Except PyError Url :=
  match tb with
  | .ok u => .ok u
  | .error r => .error (.commandError (invalidUrlMsg r))

/-- `replace_variables(win_id, arglist)`: fetch each URL rendering once,
only when its placeholder token occurs in the list, then map over the
arguments replacing exact `"\x7burl\x7d"` / `"\x7burl:pretty\x7d"`
tokens (the `getD` defaults are unreachable: the fetched value is
present whenever the token occurs). -/
def replace_variables (ctx : RunCtx) (arglist : List Str) :
    Except PyError (List Str) :=
  match (if ("\x7burl\x7d".toList) ∈ arglist
         then (current_url ctx.tabbed_browser).map (fun u => some u.fullyEncodedRemovePassword)
         else .ok none) with
  | .error e => .error e
  | .ok url? =>
    match (if ("\x7burl:pretty\x7d".toList) ∈ arglist
           then (current_url ctx.tabbed_browser).map (fun u => some u.removePassword)
           else .ok none) with
    | .error e => .error e
    | .ok purl? =>
      .ok (arglist.map (fun arg =>
        if arg == "\x7burl\x7d".toList then url?.getD arg
        else if arg == "\x7burl:pretty\x7d".toList then purl?.getD arg
        else arg))

/-- The spec's description of variable substitution for a single token,
used to compare `replace_variables` against the spec's words: the
literal `"\x7burl\x7d"` / `"\x7burl:pretty\x7d"` tokens become the two
credential-stripped renderings, any other token passes through. -/
def substTokenSpec (u : Url) (t : Str) : Str :=
  if t = "\x7burl\x7d".toList then u.fullyEncodedRemovePassword
  else if t = "\x7burl:pretty\x7d".toList then u.removePassword
  else t

/-- The three reserved command names that do not update `last_command`. -/
def reservedNames : List Str :=
  ["leave-mode".toList, "command-accept".toList, "repeat-command".toList]

/-- The count-merging conditional of `CommandRunner.run`: a caller count
together with a parsed count raises `CommandMetaError`; otherwise the
present one (if any) is used. -/
def resolveCount (count rc : Option Int) : Except PyError (Option Int) :=
  match count, rc with
  | some _, some _ => .error (.commandMetaError ("Got count via command and prefix!".toList))
  | some c, none => .ok (some c)
  | none, rc => .ok rc

/-- The body of `run`'s loop for one `ParseResult`: substitute variables,
merge counts, invoke the command, and update `last_command[mode]` with
`(self._parse_count(text)[1], count if count is not None else
result.count)` unless `result.cmdline[0]` is reserved.  Returns the
invocation performed (if any), the registry after the iteration, and
the error that escaped (if any). -/
def runBody (ctx : RunCtx) (text : Str) (count : Option Int) (reg : LastReg)
    (result : ParseResult) : Option Invocation × LastReg × Option PyError :=
  match result.args with
  | none => (none, reg, some .typeError)
  | some args =>
    match replace_variables ctx args with
    | .error e => (none, reg, some e)
    | .ok args2 =>
      match resolveCount count result.count with
      | .error e => (none, reg, some e)
      | .ok cnt =>
        match result.cmd with
        | none => (none, reg, some .attributeError)
        | some cmd =>
          let inv : Invocation := ⟨cmd, args2, cnt⟩
          match result.cmdline with
          | [] => (some inv, reg, some .indexError)
          | c0 :: _ =>
            if c0 ∈ reservedNames then (some inv, reg, none)
            else (some inv, dictSet reg ctx.mode ((parse_count text).2, cnt), none)

/-- The `for result in self.parse_all(text)` loop of `run`: parse each
segment lazily, process it with `runBody`, and stop at the first error,
keeping the invocations performed and the registry reached so far. -/
def runLoop (cfg : Config) (ctx : RunCtx) (text : Str) (count : Option Int) :
    List Str → LastReg → List Invocation → List Invocation × LastReg × Option PyError
  | [], reg, acc => (acc, reg, none)
  | sub :: rest, reg, acc =>
    match parse cfg sub true false false with
    | .error e => (acc, reg, some e)
    | .ok result =>
      match runBody ctx text count reg result with
      | (inv?, reg2, some e) => (acc ++ inv?.toList, reg2, some e)
      | (inv?, reg2, none) => runLoop cfg ctx text count rest reg2 (acc ++ inv?.toList)

/-- `CommandRunner.run(text, count)` starting from registry `reg0`:
`parse_all` is called with its default options (`aliases=True,
fallback=False, keep=False`).  The result is the list of invocations
performed, the final registry, and the error that aborted the run (if
any). -/
def run (cfg : Config) (ctx : RunCtx) (text : Str) (count : Option Int)
    (reg0 : LastReg) : List Invocation × LastReg × Option PyError :=
  match subTexts cfg text true false false with
  | .error e => ([], reg0, some e)
  | .ok subs => runLoop cfg ctx text count subs reg0 []

/-- A plain command: unbounded splitting, no flags with arguments,
splittable on the chain separator. -/
def cmdPlain : Cmd := ⟨none, [], false⟩

/-- A command carrying `no_cmd_split = True`. -/
def cmdNoSplit : Cmd := ⟨none, [], true⟩

/-- A command with `maxsplit = 1` whose `flags_with_args` contains `-v`. -/
def cmdBounded : Cmd := ⟨some 1, ["-v".toList], false⟩

/-- A command with `maxsplit = 0` whose `flags_with_args` contains `-v`. -/
def cmdBounded0 : Cmd := ⟨some 0, ["-v".toList], false⟩

/-- A concrete runner configuration used for evaluations: the alias
`myal ↦ open` and a small command registry. -/
def cfgMain : Config :=
  ⟨[("myal".toList, "open".toList)],
   [("open".toList, cmdPlain), ("foo".toList, cmdPlain), ("bar".toList, cmdPlain),
    ("ncs".toList, cmdNoSplit), ("scroll".toList, cmdPlain), ("bx".toList, cmdBounded)],
   false⟩

/-- The browsing context of the spec's example page
`https://a:b@example.com/p`: both renderings strip the credentials. -/
def urlEx : Url := ⟨"https://example.com/p".toList, "https://example.com/p".toList⟩

/-- A runtime context whose current URL is valid. -/
def ctxGood : RunCtx := ⟨.ok urlEx, "normal".toList⟩

/-- A runtime context whose current URL raises `QtValueError` (no reason
text), in mode `normal`. -/
def ctxBad : RunCtx := ⟨.error none, "normal".toList⟩

theorem parse_aliases_false (cfg : Config) (t : Str) (fb k : Bool) :
    parse cfg t false fb k = parseNoAlias cfg t fb k := rfl

theorem parseList_singleton (cfg : Config) (a f k : Bool) (t : Str) :
    parseList cfg a f k [t] = (parse cfg t a f k).map (fun r => [r]) := by
  cases hp : parse cfg t a f k <;> simp [parseList, hp, Except.map]

theorem listMapCongr {α β : Type} (f g : α → β) :
    ∀ l : List α, (∀ a ∈ l, f a = g a) → l.map f = l.map g := by
  intro l h
  induction l with
  | nil => rfl
  | cons x xs ih =>
    simp only [List.map_cons]
    rw [h x (by simp), ih (fun a ha => h a (by simp [ha]))]

theorem findBoundary_append (flags : List Str) (tok : Str) (rest : List Str) :
    ∀ (pre : List Str) (i f : Nat),
      (∀ s ∈ pre, (pyStrip s).head? = some '-') →
      (pyStrip tok).head? ≠ some '-' →
      findBoundary flags i f (pre ++ tok :: rest) =
        some (i + pre.length, f + (pre.filter (fun s => flags.contains (pyStrip s))).length) := by
  intro pre
  induction pre with
  | nil =>
    intro i f _ htok
    simp [findBoundary, htok]
  | cons p pre' ih =>
    intro i f hpre htok
    have hp : (pyStrip p).head? = some '-' := hpre p (by simp)
    have hrec := ih (i + 1) (if flags.contains (pyStrip p) then f + 1 else f)
      (fun s hs => hpre s (by simp [hs])) htok
    simp only [List.cons_append, findBoundary, hp, if_true]
    refine hrec.trans ?_
    simp only [List.filter_cons, List.length_cons]
    by_cases hc : pyStrip p ∈ flags <;> simp [hc] <;> omega

theorem splitColon_append (c rest : Str) (h : splitColon c = none) :
    splitColon (c ++ ':' :: rest) = some (c, rest) := by
  induction c with
  | nil => simp [splitColon]
  | cons ch c' ih =>
    by_cases hch : ch = ':'
    · subst hch
      simp [splitColon] at h
    · simp only [splitColon, hch, if_false, Option.map_eq_none'] at h
      simp [splitColon, hch, ih h]

theorem parseTail_cmd_none (cfg : Config) (text cmdstr sep argstr : Str)
    (count : Option Int) (fallback keep : Bool) (r : ParseResult)
    (h : parseTail cfg text cmdstr sep argstr count fallback keep = .ok r)
    (hc : r.cmd = none) : r.args = none := by
  simp only [parseTail] at h
  repeat' split at h
  all_goals simp_all
  all_goals (cases h; simp_all [parse_fallback])

theorem parseNoAlias_cmd_none (cfg : Config) (text : Str) (fallback keep : Bool)
    (r : ParseResult) (h : parseNoAlias cfg text fallback keep = .ok r)
    (hc : r.cmd = none) : r.args = none := by
  simp only [parseNoAlias] at h
  split at h
  · simp_all
  · exact parseTail_cmd_none _ _ _ _ _ _ _ _ _ h hc

theorem parse_cmd_none (cfg : Config) (text : Str) (a f k : Bool)
    (r : ParseResult) (h : parse cfg text a f k = .ok r)
    (hc : r.cmd = none) : r.args = none := by
  simp only [parse] at h
  split at h
  · simp_all
  · split at h
    · split at h
      · simp_all
      · exact parseNoAlias_cmd_none _ _ _ _ _ h hc
      · exact parseTail_cmd_none _ _ _ _ _ _ _ _ _ h hc
    · exact parseTail_cmd_none _ _ _ _ _ _ _ _ _ h hc

theorem parseList_cmd_none (cfg : Config) (a f k : Bool) :
    ∀ (ts : List Str) (l : List ParseResult),
      parseList cfg a f k ts = .ok l →
      ∀ r ∈ l, r.cmd = none → r.args = none := by
  intro ts
  induction ts with
  | nil =>
    intro l h r hr
    cases h
    simp at hr
  | cons t ts' ih =>
    intro l h r hr hc
    unfold parseList at h
    split at h
    · cases h
    · split at h
      · cases h
      · cases h
        rcases List.mem_cons.mp hr with h1 | h1
        · subst h1
          exact parse_cmd_none _ _ _ _ _ _ (by assumption) hc
        · exact ih _ (by assumption) r h1 hc

/-- C1: evaluation at the failing inputs.  Contrary to the claim that
`parse`/`parse_all` fail only with the recoverable `NoSuchCommand`
error, with `fallback=true` the empty and all-whitespace texts reach
`_get_alias`, whose `parts[0]` raises `IndexError` (its `except` clause
catches only the two config errors, contradicting its own docstring
"Return: None if no alias was found"), and a chained text whose first
segment parses to a fallback result with `cmd = None` reaches
`result.cmd.no_cmd_split` in `parse_all`, raising `AttributeError`. -/
theorem c1_crash_eval :
    parse cfgMain "".toList true true false = .error .indexError ∧
    parse cfgMain " ".toList true true false = .error .indexError ∧
    parse_all cfgMain "nosuch;;foo".toList true true false = .error .attributeError :=
  ⟨by decide, by decide, by decide⟩

/-- C9: for every text whose command token is empty after partitioning on
the first space and stripping a count prefix, `parse` with
`fallback=false` fails with `NoSuchCommand("No command given")`,
whatever the other options are. -/
theorem c9_empty_command (cfg : Config) (text : Str) (aliases keep : Bool)
    (h : (parse_count (pyPartition text).1).2 = []) :
    parse cfg text aliases false keep = .error (.noSuchCommand ("No command given".toList)) := by
  simp [parse, h]

/-- C9 witness: the inputs `""` and `" "` of the claim. -/
theorem c9_empty_command_witness :
    parse cfgMain "".toList true false false =
      .error (.noSuchCommand ("No command given".toList)) ∧
    parse cfgMain " ".toList true false false =
      .error (.noSuchCommand ("No command given".toList)) :=
  ⟨c9_empty_command cfgMain "".toList true false rfl,
   c9_empty_command cfgMain " ".toList true false rfl⟩

/-- C10: every `ParseResult` returned by `parse` or yielded by
`parse_all`, under every option combination, has `args = none` whenever
`cmd = none`. -/
theorem c10_invariant (cfg : Config) (text : Str) (a f k : Bool) :
    (∀ r, parse cfg text a f k = .ok r → r.cmd = none → r.args = none) ∧
    (∀ l, parse_all cfg text a f k = .ok l → ∀ r ∈ l, r.cmd = none → r.args = none) := by
  constructor
  · intro r h hc
    exact parse_cmd_none cfg text a f k r h hc
  · intro l h r hr hc
    unfold parse_all at h
    split at h
    · cases h
    · exact parseList_cmd_none cfg a f k _ l (by assumption) r hr hc

/-- C10 witness: the fallback parse of `nosuch` has `cmd = none`, and the
invariant applied there gives `args = none`. -/
theorem c10_invariant_witness :
    (⟨none, none, ["nosuch".toList], none⟩ : ParseResult).args = none :=
  (c10_invariant cfgMain "nosuch".toList true true false).1
    ⟨none, none, ["nosuch".toList], none⟩ (by decide) rfl

/-- C7: `parse("3:foo bar")` yields `count=3` and command token `foo`;
`parse("x:foo bar")` yields `count=None` and the same token; and in
general splitting a colon-free prefix `c` from `c ++ ":" ++ rest` gives
`(int(c) or None, rest)`, consuming the prefix and colon without ever
raising. -/
theorem c7_count_prefix :
    parse cfgMain "3:foo bar".toList true false false =
      .ok ⟨some cmdPlain, some ["bar".toList], ["foo".toList, "bar".toList], some 3⟩ ∧
    parse cfgMain "x:foo bar".toList true false false =
      .ok ⟨some cmdPlain, some ["bar".toList], ["foo".toList, "bar".toList], none⟩ ∧
    ∀ (c rest : Str), splitColon c = none →
      parse_count (c ++ ':' :: rest) = (pyInt c, rest) := by
  refine ⟨by decide, by decide, ?_⟩
  intro c rest h
  unfold parse_count
  rw [splitColon_append c rest h]

/-- C7 witness: the general part at the unparseable prefix `x`. -/
theorem c7_count_prefix_witness :
    parse_count ("x".toList ++ ':' :: "foo bar".toList) =
      (pyInt "x".toList, "foo bar".toList) :=
  c7_count_prefix.2.2 "x".toList "foo bar".toList (by decide)

/-- C6: without `;;` in the text, `parse_all` yields exactly the single
result of `parse(text)`; with `;;` and a first segment resolving to a
`no_cmd_split` command, it yields exactly the single parse of the whole
original text; with `;;` and a first segment resolving to a splittable
command, it yields the parses of the whitespace-trimmed `;;`-segments
in order. -/
theorem c6_parse_all_cases (cfg : Config) (text : Str) (a f k : Bool) :
    (hasSS text = false →
      parse_all cfg text a f k = (parse cfg text a f k).map (fun r => [r])) ∧
    (∀ r c, hasSS text = true → parse cfg (firstSeg text) a f k = .ok r →
      r.cmd = some c → c.no_cmd_split = true →
      parse_all cfg text a f k = (parse cfg text a f k).map (fun r => [r])) ∧
    (∀ r c, hasSS text = true → parse cfg (firstSeg text) a f k = .ok r →
      r.cmd = some c → c.no_cmd_split = false →
      parse_all cfg text a f k = parseList cfg a f k ((splitSS text).map pyStrip)) := by
  refine ⟨?_, ?_, ?_⟩
  · intro hss
    simp [parse_all, subTexts, hss, parseList_singleton]
  · intro r c hss hp hc hn
    simp [parse_all, subTexts, hss, hp, hc, hn, parseList_singleton]
  · intro r c hss hp hc hn
    simp [parse_all, subTexts, hss, hp, hc, hn]

/-- C6 witness: the three cases at concrete chained inputs. -/
theorem c6_parse_all_cases_witness :
    parse_all cfgMain "foo x".toList true false false =
      (parse cfgMain "foo x".toList true false false).map (fun r => [r]) ∧
    parse_all cfgMain "ncs a;;foo".toList true false false =
      (parse cfgMain "ncs a;;foo".toList true false false).map (fun r => [r]) ∧
    parse_all cfgMain "foo a;;bar b".toList true false false =
      parseList cfgMain true false false ((splitSS "foo a;;bar b".toList).map pyStrip) :=
  ⟨(c6_parse_all_cases cfgMain "foo x".toList true false false).1 (by decide),
   (c6_parse_all_cases cfgMain "ncs a;;foo".toList true false false).2.1
     ⟨some cmdNoSplit, some ["a".toList], ["ncs".toList, "a".toList], none⟩ cmdNoSplit
     (by decide) (by decide) rfl rfl,
   (c6_parse_all_cases cfgMain "foo a;;bar b".toList true false false).2.2
     ⟨some cmdPlain, some ["a".toList], ["foo".toList, "a".toList], none⟩ cmdPlain
     (by decide) (by decide) rfl rfl⟩

/-- C2 counterexample: with `maxsplit=1` and `-v` in `flags_with_args`,
the argument string of the claim's example does not split into the
four-token list the claim states (the code's formula gives
`maxsplit = 2 + 1 + 1 = 4`, which splits all five words apart). -/
theorem c2_example_counterexample :
    split_args cmdBounded "--flag -v bar baz qux".toList false ≠
      ["--flag".toList, "-v".toList, "bar".toList, "baz qux".toList] := by
  decide

/-- C2 (amended): the example input splits fully into five tokens under
`maxsplit=1` (the claim's four-token output is what `maxsplit=0`
produces); and in general, when the first simple split has a first
non-flag token at index `i` preceded only by flag tokens of which `f`
are flags-with-args, `_split_args` re-splits the argument string with
`maxsplit = i + cmd.maxsplit + f`, the last token absorbing the
remainder verbatim. -/
theorem c2_bounded_split :
    split_args cmdBounded "--flag -v bar baz qux".toList false =
      ["--flag".toList, "-v".toList, "bar".toList, "baz".toList, "qux".toList] ∧
    split_args cmdBounded0 "--flag -v bar baz qux".toList false =
      ["--flag".toList, "-v".toList, "bar".toList, "baz qux".toList] ∧
    ∀ (cmd : Cmd) (m : Nat) (argstr : Str) (keep : Bool) (pre rest : List Str) (tok : Str),
      cmd.maxsplit = some m → argstr ≠ [] →
      simple_split argstr keep none = pre ++ tok :: rest →
      (∀ s ∈ pre, (pyStrip s).head? = some '-') →
      (pyStrip tok).head? ≠ some '-' →
      split_args cmd argstr keep =
        simple_split argstr keep
          (some (pre.length + m +
            (pre.filter (fun s => cmd.flags_with_args.contains (pyStrip s))).length)) := by
  refine ⟨by decide, by decide, ?_⟩
  intro cmd m argstr keep pre rest tok hms hne hsplit hpre htok
  simp only [split_args]
  rw [if_neg hne, hms, hsplit,
    findBoundary_append cmd.flags_with_args tok rest pre 0 0 hpre htok]
  simp

/-- C2 witness: the general formula applied at the example input, where
the boundary index is 2 and one flag-with-args precedes it. -/
theorem c2_bounded_split_witness :
    split_args cmdBounded "--flag -v bar baz qux".toList false =
      simple_split "--flag -v bar baz qux".toList false (some 4) := by
  have h := c2_bounded_split.2.2 cmdBounded 1 "--flag -v bar baz qux".toList false
    ["--flag".toList, "-v".toList] ["baz".toList, "qux".toList] "bar".toList
    rfl (by decide) (by decide) (by decide) (by decide)
  exact h.trans (by decide)

theorem rvMapEq (u : Url) (arglist : List Str) (url? purl? : Option Str)
    (hu : ("\x7burl\x7d".toList : Str) ∈ arglist → url? = some u.fullyEncodedRemovePassword)
    (hp : ("\x7burl:pretty\x7d".toList : Str) ∈ arglist → purl? = some u.removePassword) :
    arglist.map (fun arg =>
      if arg == "\x7burl\x7d".toList then url?.getD arg
      else if arg == "\x7burl:pretty\x7d".toList then purl?.getD arg
      else arg) = arglist.map (substTokenSpec u) := by
  refine listMapCongr _ _ arglist ?_
  intro a ha
  simp only [substTokenSpec, beq_iff_eq]
  by_cases ha1 : a = "\x7burl\x7d".toList
  · rw [if_pos ha1, if_pos ha1, hu (ha1 ▸ ha)]
    rfl
  · rw [if_neg ha1, if_neg ha1]
    by_cases ha2 : a = "\x7burl:pretty\x7d".toList
    · rw [if_pos ha2, if_pos ha2, hp (ha2 ▸ ha)]
      rfl
    · rw [if_neg ha2, if_neg ha2]

/-- C8: variable substitution maps each token through the spec's
per-token substitution (replacing exactly the `"\x7burl\x7d"` and
`"\x7burl:pretty\x7d"` tokens with the credential-stripped fully-encoded
and pretty renderings, leaving other tokens in place and preserving
length and order), and fails with a `CommandError` when the current URL
is invalid and one of the placeholder tokens occurs. -/
theorem c8_replace_variables (ctx : RunCtx) (arglist : List Str) :
    (∀ u, ctx.tabbed_browser = .ok u →
      replace_variables ctx arglist = .ok (arglist.map (substTokenSpec u))) ∧
    (∀ r, ctx.tabbed_browser = .error r →
      ("\x7burl\x7d".toList ∈ arglist ∨ "\x7burl:pretty\x7d".toList ∈ arglist) →
      replace_variables ctx arglist = .error (.commandError (invalidUrlMsg r))) := by
  constructor
  · intro u htb
    simp only [replace_variables, current_url, htb, Except.map]
    split
    · rename_i e h1eq
      split at h1eq <;> cases h1eq
    · rename_i url? h1eq
      split
      · rename_i e h2eq
        split at h2eq <;> cases h2eq
      · rename_i purl? h2eq
        refine congrArg Except.ok (rvMapEq u arglist url? purl? ?_ ?_)
        · intro hmem
          rw [if_pos hmem] at h1eq
          exact (Except.ok.inj h1eq).symm
        · intro hmem
          rw [if_pos hmem] at h2eq
          exact (Except.ok.inj h2eq).symm
  · intro r htb hmem
    simp only [replace_variables, current_url, htb, Except.map]
    split
    · rename_i e h1eq
      split at h1eq
      · cases h1eq
        rfl
      · cases h1eq
    · rename_i url? h1eq
      split
      · rename_i e h2eq
        split at h2eq
        · cases h2eq
          rfl
        · cases h2eq
      · rename_i purl? h2eq
        exfalso
        split at h1eq
        · cases h1eq
        · split at h2eq
          · cases h2eq
          · rename_i hn1 hn2
            rcases hmem with hm | hm
            · exact hn1 hm
            · exact hn2 hm

/-- C8 witness: substitution on the example page with credentials in the
URL, and the failing case with an invalid current URL. -/
theorem c8_replace_variables_witness :
    replace_variables ctxGood ["open".toList, "\x7burl\x7d".toList] =
      .ok (["open".toList, "\x7burl\x7d".toList].map (substTokenSpec urlEx)) ∧
    replace_variables ctxBad ["\x7burl\x7d".toList] =
      .error (.commandError (invalidUrlMsg none)) :=
  ⟨(c8_replace_variables ctxGood _).1 urlEx rfl,
   (c8_replace_variables ctxBad _).2 none rfl (Or.inl (by decide))⟩

/-- C5: once a segment's variable substitution succeeds, a caller count
together with a parsed count makes the iteration fail with
`CommandMetaError` before any invocation; with exactly one count
present the command is invoked with that count; with neither it is
invoked without a count; and for a single-segment text, `run` itself
fails with the meta error in the conflict case. -/
theorem c5_count_merge (cfg : Config) (ctx : RunCtx) (text : Str) (count : Option Int)
    (reg : LastReg) (result : ParseResult) (args args2 : List Str) (cmd : Cmd)
    (hargs : result.args = some args)
    (hrepl : replace_variables ctx args = .ok args2)
    (hcmd : result.cmd = some cmd) :
    ((∃ c c', count = some c ∧ result.count = some c') →
      runBody ctx text count reg result =
        (none, reg, some (.commandMetaError ("Got count via command and prefix!".toList)))) ∧
    (∀ c, count = some c → result.count = none →
      (runBody ctx text count reg result).1 = some ⟨cmd, args2, some c⟩) ∧
    (∀ c, count = none → result.count = some c →
      (runBody ctx text count reg result).1 = some ⟨cmd, args2, some c⟩) ∧
    (count = none → result.count = none →
      (runBody ctx text count reg result).1 = some ⟨cmd, args2, none⟩) ∧
    (hasSS text = false → parse cfg text true false false = .ok result →
      (∃ c c', count = some c ∧ result.count = some c') →
      run cfg ctx text count reg =
        ([], reg, some (.commandMetaError ("Got count via command and prefix!".toList)))) := by
  refine ⟨?_, ?_, ?_, ?_, ?_⟩
  · rintro ⟨c, c', hc, hc'⟩
    simp [runBody, hargs, hrepl, hc, hc', resolveCount]
  · intro c hc hc'
    simp only [runBody, hargs, hrepl, hc, hc', resolveCount, hcmd]
    cases hcl : result.cmdline with
    | nil => rfl
    | cons c0 cl => by_cases hr : c0 ∈ reservedNames <;> simp [hr]
  · intro c hc hc'
    simp only [runBody, hargs, hrepl, hc, hc', resolveCount, hcmd]
    cases hcl : result.cmdline with
    | nil => rfl
    | cons c0 cl => by_cases hr : c0 ∈ reservedNames <;> simp [hr]
  · intro hc hc'
    simp only [runBody, hargs, hrepl, hc, hc', resolveCount, hcmd]
    cases hcl : result.cmdline with
    | nil => rfl
    | cons c0 cl => by_cases hr : c0 ∈ reservedNames <;> simp [hr]
  · rintro hss hp ⟨c, c', hc, hc'⟩
    have hsub : subTexts cfg text true false false = .ok [text] := by
      simp [subTexts, hss]
    simp [run, hsub, runLoop, hp, runBody, hargs, hrepl, hc, hc', resolveCount]

/-- C5 witness: the spec's example `run("2:scroll down", count=5)` fails
with the meta error, and with only the embedded count the invocation
carries `count=2`. -/
theorem c5_count_merge_witness :
    run cfgMain ctxBad "2:scroll down".toList (some 5) [] =
      ([], [], some (.commandMetaError ("Got count via command and prefix!".toList))) ∧
    (runBody ctxBad "2:scroll down".toList none []
        ⟨some cmdPlain, some ["down".toList], ["scroll".toList, "down".toList], some 2⟩).1 =
      some ⟨cmdPlain, ["down".toList], some 2⟩ :=
  ⟨(c5_count_merge cfgMain ctxBad "2:scroll down".toList (some 5) []
      ⟨some cmdPlain, some ["down".toList], ["scroll".toList, "down".toList], some 2⟩
      ["down".toList] ["down".toList] cmdPlain rfl (by decide) rfl).2.2.2.2
      (by decide) (by decide) ⟨5, 2, rfl, rfl⟩,
   (c5_count_merge cfgMain ctxBad "2:scroll down".toList none []
      ⟨some cmdPlain, some ["down".toList], ["scroll".toList, "down".toList], some 2⟩
      ["down".toList] ["down".toList] cmdPlain rfl (by decide) rfl).2.2.1 2 rfl rfl⟩

/-- C3 counterexample: `run("open a:b")` records `"b"` — the text after
its first colon — in the last-command registry, not the full text
`"open a:b"` (which has no leading count prefix, so the claim's
description would leave it unchanged): `run` applies `_parse_count` to
the whole text, not only to a leading count prefix. -/
theorem c3_counterexample :
    (run cfgMain ctxBad "open a:b".toList none []).2.1 =
      [("normal".toList, ("b".toList, (none : Option Int)))] ∧
    (run cfgMain ctxBad "open a:b".toList none []).2.1 ≠
      [("normal".toList, ("open a:b".toList, (none : Option Int)))] :=
  ⟨by decide, by decide⟩

/-- C3 (amended): for every successfully dispatched iteration of `run`,
if the first token of the parsed command line is not reserved, the
registry entry for the current mode is set to the pair (the second
component of `_parse_count` on the whole input text — everything after
the first colon when the text contains one, the unchanged text
otherwise — and the resolved count or `None`); a reserved first token
leaves the registry unchanged. -/
theorem c3_last_command (ctx : RunCtx) (text : Str) (count : Option Int)
    (reg : LastReg) (result : ParseResult) (args args2 : List Str) (cmd : Cmd)
    (cnt : Option Int) (c0 : Str) (cl : List Str)
    (hargs : result.args = some args)
    (hrepl : replace_variables ctx args = .ok args2)
    (hcmd : result.cmd = some cmd)
    (hcnt : resolveCount count result.count = .ok cnt)
    (hcl : result.cmdline = c0 :: cl) :
    (c0 ∉ reservedNames →
      runBody ctx text count reg result =
        (some ⟨cmd, args2, cnt⟩,
         dictSet reg ctx.mode ((parse_count text).2, cnt), none)) ∧
    (c0 ∈ reservedNames →
      runBody ctx text count reg result = (some ⟨cmd, args2, cnt⟩, reg, none)) := by
  constructor <;> intro hr <;>
    simp [runBody, hargs, hrepl, hcmd, hcnt, hcl, hr]

/-- C3 witness: the non-reserved and reserved branches at concrete
iterations. -/
theorem c3_last_command_witness :
    runBody ctxBad "open a:b".toList none []
        ⟨some cmdPlain, some ["a:b".toList], ["open".toList, "a:b".toList], none⟩ =
      (some ⟨cmdPlain, ["a:b".toList], none⟩,
       [("normal".toList, ("b".toList, none))], none) ∧
    runBody ctxBad "leave-mode".toList none [("m".toList, ("x".toList, some 1))]
        ⟨some cmdPlain, some [], ["leave-mode".toList], none⟩ =
      (some ⟨cmdPlain, [], none⟩, [("m".toList, ("x".toList, some 1))], none) :=
  ⟨(c3_last_command ctxBad "open a:b".toList none []
      ⟨some cmdPlain, some ["a:b".toList], ["open".toList, "a:b".toList], none⟩
      ["a:b".toList] ["a:b".toList] cmdPlain none "open".toList ["a:b".toList]
      rfl (by decide) rfl rfl rfl).1 (by decide),
   (c3_last_command ctxBad "leave-mode".toList none [("m".toList, ("x".toList, some 1))]
      ⟨some cmdPlain, some [], ["leave-mode".toList], none⟩
      [] [] cmdPlain none "leave-mode".toList []
      rfl (by decide) rfl rfl rfl).2 (by decide)⟩

/-- C4 counterexample: the alias lookup uses the raw first token of the
text, not the command token after count-prefix stripping: with alias
`myal ↦ open`, parsing `"2:myal x"` does not expand the alias (the
lookup key is `"2:myal"`) and fails with `NoSuchCommand`, while the
claim predicts the result of `parse("open x", aliases=false)`. -/
theorem c4_counterexample :
    parse cfgMain "2:myal x".toList true false false ≠
      parse cfgMain "open x".toList false false false := by
  decide

/-- C4 (amended): when the first whitespace-delimited token of the
stripped text (count prefix included) is an alias name, `_get_alias`
builds the replacement followed by a space and the remainder (or the
replacement alone), preserving a trailing space of the original text;
`parse` with `aliases=true` then returns exactly the re-parse of that
expansion with `aliases=false` (provided the empty-command check did
not already fail); and with `aliases=false` the alias table is never
consulted, so no expansion ever occurs. -/
theorem c4_alias_expansion :
    (∀ (cfg : Config) (text : Str) (p0 p1 : Str) (repl : Str),
      splitWsMax (some 1) (pyStrip text) = [p0, p1] →
      alookup cfg.aliases p0 = some repl →
      get_alias cfg text = .ok (some
        (if endsWithSpace text then (repl ++ ' ' :: p1) ++ [' '] else repl ++ ' ' :: p1))) ∧
    (∀ (cfg : Config) (text : Str) (p0 : Str) (repl : Str),
      splitWsMax (some 1) (pyStrip text) = [p0] →
      alookup cfg.aliases p0 = some repl →
      get_alias cfg text = .ok (some
        (if endsWithSpace text then repl ++ [' '] else repl))) ∧
    (∀ (cfg : Config) (text new_cmd : Str) (fallback keep : Bool),
      get_alias cfg text = .ok (some new_cmd) →
      ¬((parse_count (pyPartition text).1).2 = [] ∧ fallback = false) →
      parse cfg text true fallback keep = parse cfg new_cmd false fallback keep) ∧
    (∀ (al al' : List (Str × Str)) (d : List (Str × Cmd)) (pm : Bool) (t : Str) (fb k : Bool),
      parse ⟨al, d, pm⟩ t false fb k = parse ⟨al', d, pm⟩ t false fb k) := by
  refine ⟨?_, ?_, ?_, ?_⟩
  · intro cfg text p0 p1 repl hsp hlk
    simp [get_alias, hsp, hlk]
  · intro cfg text p0 repl hsp hlk
    simp [get_alias, hsp, hlk]
  · intro cfg text nc fb k hga h2
    rw [parse_aliases_false]
    simp only [parse]
    rw [if_neg h2]
    simp [hga]
  · intro al al' d pm t fb k
    rfl

/-- C4 witness: with alias `myal ↦ open`, parsing `"myal x y"` with
aliases enabled equals re-parsing `"open x y"` with aliases disabled. -/
theorem c4_alias_expansion_witness :
    parse cfgMain "myal x y".toList true false false =
      parse cfgMain "open x y".toList false false false :=
  c4_alias_expansion.2.2.1 cfgMain "myal x y".toList "open x y".toList false false
    (by decide) (by decide)
